import Mathlib

/-!
# ECU ScanGuard sample corpus: a shallow embedding

The two C files of the corpus (`examples/automotive_formats/sample_ansi_c.c` and
`examples/comprehensive_real_world_vulnerabilities.c`) are embedded function by function.

* A byte is a `Nat` below 256; memory that a pointer points at is the `List Nat` of the bytes
  from the pointer to the end of the object.
* A function is run as the trace of what it does, in source order: the stores the C library
  makes on its behalf (with the capacity of the object stored to) and the calls it makes
  (with the arguments as the callee receives them, converted to the parameter types).  A store longer than the capacity is a write past
  the end of the object; memory is flat, so a later read of that object sees the bytes stored.
* A read that finds no NUL inside the object it starts in leaves the model (`none`).
-/

namespace EcuScanGuard

/-! ## Bytes, arguments, events -/

/-- The bytes of a string literal of the source (without the terminator). -/
def literal (s : String) : List Nat := s.toList.map Char.toNat

/-- An argument as the callee receives it, after conversion to the type of the parameter. -/
inductive Arg where
  /-- a pointer to a C string with these characters (terminator not listed) -/
  | str (chars : List Nat)
  /-- a pointer to the first byte of a local array with this content -/
  | array (content : List Nat)
  /-- an integer value -/
  | int (value : Int)
  /-- a pointer the function received as a parameter, passed on unchanged -/
  | ptr (address : Nat)
  /-- the address of a local object or a constant of a library header, by its name -/
  | name (symbol : String)
  deriving DecidableEq, Repr

/-- One observable step of a function body. -/
inductive Event where
  /-- `bytes` are stored from offset 0 of `object`, an object of `capacity` bytes -/
  | store (object : String) (capacity : Nat) (bytes : List Nat)
  /-- `n` bytes are copied from offset 0 of `src` to offset 0 of `dst` -/
  | copy (dst : String) (dstCapacity : Nat) (src : String) (srcCapacity : Nat) (n : Nat)
  /-- a call of a function whose body is elsewhere -/
  | call (callee : String) (args : List Arg)
  deriving DecidableEq, Repr

/-- The bytes written by the event all lie inside the destination object. -/
def Event.write_within : Event → Bool
  | .store _ capacity bytes => decide (bytes.length ≤ capacity)
  | .copy _ dstCapacity _ _ n => decide (n ≤ dstCapacity)
  | .call _ _ => true

/-- The event writes at least one byte past the end of the destination object. -/
def Event.write_past_end : Event → Bool
  | .store _ capacity bytes => decide (capacity < bytes.length)
  | .copy _ dstCapacity _ _ n => decide (dstCapacity < n)
  | .call _ _ => false

/-- The bytes read by a `copy` all lie inside the source object. -/
def Event.read_within : Event → Bool
  | .copy _ _ _ srcCapacity n => decide (n ≤ srcCapacity)
  | _ => true

/-- The calls of `callee` in a trace. -/
def calls_of (callee : String) (trace : List Event) : List Event :=
  trace.filter fun e =>
    match e with
    | .call c _ => decide (c = callee)
    | _ => false

/-! ## The C library, as far as the corpus uses it -/

/-- `strlen(s)`: the number of bytes before the first NUL; `none` when the object holds no NUL. -/
def strlen : List Nat → Option Nat
  | [] => none
  | b :: rest => if b = 0 then some 0 else (strlen rest).map (· + 1)

/-- The characters of the C string at the start of `mem` (what `%s` or a `char*` parameter
reads): the bytes before the first NUL. -/
def c_str : List Nat → Option (List Nat)
  | [] => none
  | b :: rest => if b = 0 then some [] else (c_str rest).map (b :: ·)

/-- `strcpy(dst, src)`: the bytes stored from the start of `dst`, one per byte of `src` up to and
including the terminator.  There is no capacity among the arguments. -/
def strcpy : List Nat → Option (List Nat)
  | [] => none
  | b :: rest => if b = 0 then some [0] else (strcpy rest).map (b :: ·)

/-- `strcmp(a, b)`: the difference of the first two bytes that differ, `0` when both strings end
together; `none` when an object ends before the comparison does. -/
def strcmp : List Nat → List Nat → Option Int
  | a :: as, b :: bs =>
    if a ≠ b then some ((a : Int) - (b : Int))
    else if a = 0 then some 0
    else strcmp as bs
  | _, _ => none

/-- The output of a `printf`-family conversion of `fmt` with `args`: `%s` inserts the characters
of the next string argument, `%%` a percent sign, any other byte is copied.  Other directives
do not occur in the formats embedded here (`none`). -/
def format : List Nat → List Arg → Option (List Nat)
  | [], _ => some []
  | c :: rest, args =>
    if c = 37 then
      match rest, args with
      | d :: rest2, args2 =>
        if d = 115 then
          match args2 with
          | Arg.str s :: args3 => (format rest2 args3).map (s ++ ·)
          | _ => none
        else if d = 37 then (format rest2 args2).map (37 :: ·)
        else none
      | [], _ => none
    else (format rest args).map (c :: ·)

/-! ## examples/automotive_formats/sample_ansi_c.c -/

namespace sample_ansi_c

/-- `void process_can_message(char* message)`: `char buffer[256]; strcpy(buffer, message);`
then `printf("Processing: %s\n", buffer)`. -/
def process_can_message (message : List Nat) : Option (List Event) := do
  let written ← strcpy message
  let buffer ← c_str written
  some [Event.store "buffer" 256 written,
        Event.call "printf" [Arg.str (literal "Processing: %s\n"), Arg.str buffer]]

/-- `void execute_diagnostic_command(char* command)`: `char system_command[512];`
`sprintf(system_command, "diagnostic %s", command); system(system_command);`. -/
def execute_diagnostic_command (command : List Nat) : Option (List Event) := do
  let arg ← c_str command
  let out ← format (literal "diagnostic %s") [Arg.str arg]
  let written := out ++ [0]
  let system_command ← c_str written
  some [Event.store "system_command" 512 written,
        Event.call "system" [Arg.str system_command]]

/-- The least value of `int` (32 bits). -/
def INT_MIN : Int := -2147483648

/-- The greatest value of `int` (32 bits). -/
def INT_MAX : Int := 2147483647

/-- The value an `int` holds after an arithmetic result `x`: `x` reduced modulo 2^32 into
`INT_MIN .. INT_MAX`. -/
def wrap_int (x : Int) : Int := (x + 2147483648) % 4294967296 - 2147483648

/-- The loop `for (int i = 0; i < length; i++) sum += data[i];` from the state `(i, sum)`,
with the indices read so far; `none` when the fuel runs out or `data[i]` is outside the array. -/
def calculate_checksum_loop (data : List Int) (length : Int) :
    Nat → Int → Int → List Int → Option (Int × List Int)
  | 0, _, _, _ => none
  | fuel + 1, i, sum, reads =>
    if i < length then
      if i < 0 then none
      else
        match data.get? i.toNat with
        | none => none
        | some x =>
          calculate_checksum_loop data length fuel (wrap_int (i + 1)) (wrap_int (sum + x))
            (reads ++ [i])
    else some (sum, reads)

/-- `int calculate_checksum(int* data, int length)`: the value returned and the indices of
`data` that were read. -/
def calculate_checksum (data : List Int) (length : Int) : Option (Int × List Int) :=
  calculate_checksum_loop data length (length.toNat + 1) 0 0 []

end sample_ansi_c

/-! ## examples/comprehensive_real_world_vulnerabilities.c -/

namespace comprehensive

/-- `sizeof(int)`: the global `int engine_control` takes 4 bytes. -/
def sizeof_int : Nat := 4

/-- `typedef struct { uint32_t id; uint8_t data[8]; uint8_t length; } can_message_t;` -/
structure can_message_t where
  id : Nat
  data : List Nat
  length : Nat
  deriving DecidableEq, Repr

/-- The values of the members fit their types: `uint32_t`, eight `uint8_t`, `uint8_t`. -/
def can_message_t.wf (msg : can_message_t) : Prop :=
  msg.id < 4294967296 ∧ msg.data.length = 8 ∧ (∀ b ∈ msg.data, b < 256) ∧ msg.length < 256

/-- `void process_can_message(can_message_t* msg)`: for id `0x123` a `memcpy` of `msg->length`
bytes from `msg->data` to `&engine_control`, then `execute_engine_command()`; for an id in
`0x7E0 .. 0x7E7` the call `process_diagnostic_message(msg)`. -/
def process_can_message (msg : can_message_t) : List Event :=
  (if msg.id = 0x123 then
    [Event.copy "engine_control" sizeof_int "msg->data" 8 msg.length,
     Event.call "execute_engine_command" []]
  else []) ++
  (if 0x7E0 ≤ msg.id ∧ msg.id ≤ 0x7E7 then
    [Event.call "process_diagnostic_message" [Arg.name "msg"]]
  else [])

/-- `void process_diagnostic_message(can_message_t* msg)` (the definition with a body over
`msg`): `char buffer[64]; strcpy(buffer, (char*)msg->data); printf(buffer);`.  The read of
`msg->data` leaves the model when the array holds no NUL. -/
def process_diagnostic_message (msg : can_message_t) : Option (List Event) := do
  let written ← strcpy msg.data
  let buffer ← c_str written
  some [Event.store "buffer" 64 written, Event.call "printf" [Arg.str buffer]]

/-- `void process_remote_message(char* message)`: `char local_buffer[128];`
`strcpy(local_buffer, message); char large_buffer[1024]; strcpy(large_buffer, local_buffer);`. -/
def process_remote_message (message : List Nat) : Option (List Event) := do
  let local_buffer ← strcpy message
  let large_buffer ← strcpy local_buffer
  some [Event.store "local_buffer" 128 local_buffer,
        Event.store "large_buffer" 1024 large_buffer]

/-- `void process_bluetooth_message(char* message)`: `char local_buffer[64];`
`strcpy(local_buffer, message); char large_buffer[256]; strcpy(large_buffer, local_buffer);`. -/
def process_bluetooth_message (message : List Nat) : Option (List Event) := do
  let local_buffer ← strcpy message
  let large_buffer ← strcpy local_buffer
  some [Event.store "local_buffer" 64 local_buffer,
        Event.store "large_buffer" 256 large_buffer]

/-! ### MD5 (RFC 1321), the digest behind `MD5_Init`, `MD5_Update`, `MD5_Final` of the library -/

/-- `MD5_DIGEST_LENGTH` of `openssl/md5.h`. -/
def MD5_DIGEST_LENGTH : Nat := 16

/-- Reduction to an unsigned 32-bit word. -/
def u32 (x : Nat) : Nat := x % 4294967296

/-- Rotation of a 32-bit word to the left by `c` bits. -/
def rotl32 (x c : Nat) : Nat := u32 ((x <<< c) ||| (x >>> (32 - c)))

/-- The `count` low bytes of `v`, least significant first. -/
def le_bytes : Nat → Nat → List Nat
  | 0, _ => []
  | count + 1, v => v % 256 :: le_bytes count (v / 256)

/-- The value of a little-endian byte sequence. -/
def le_word : List Nat → Nat
  | [] => 0
  | b :: rest => b + 256 * le_word rest

/-- The first `count` consecutive pieces of `size` elements. -/
def blocks (size : Nat) : Nat → List Nat → List (List Nat)
  | 0, _ => []
  | count + 1, l => l.take size :: blocks size count (l.drop size)

/-- The sine table of RFC 1321: `floor (2^32 * |sin (i + 1)|)`. -/
def md5_K : List Nat :=
  [0xd76aa478, 0xe8c7b756, 0x242070db, 0xc1bdceee, 0xf57c0faf, 0x4787c62a, 0xa8304613, 0xfd469501,
   0x698098d8, 0x8b44f7af, 0xffff5bb1, 0x895cd7be, 0x6b901122, 0xfd987193, 0xa679438e, 0x49b40821,
   0xf61e2562, 0xc040b340, 0x265e5a51, 0xe9b6c7aa, 0xd62f105d, 0x02441453, 0xd8a1e681, 0xe7d3fbc8,
   0x21e1cde6, 0xc33707d6, 0xf4d50d87, 0x455a14ed, 0xa9e3e905, 0xfcefa3f8, 0x676f02d9, 0x8d2a4c8a,
   0xfffa3942, 0x8771f681, 0x6d9d6122, 0xfde5380c, 0xa4beea44, 0x4bdecfa9, 0xf6bb4b60, 0xbebfbc70,
   0x289b7ec6, 0xeaa127fa, 0xd4ef3085, 0x04881d05, 0xd9d4d039, 0xe6db99e5, 0x1fa27cf8, 0xc4ac5665,
   0xf4292244, 0x432aff97, 0xab9423a7, 0xfc93a039, 0x655b59c3, 0x8f0ccc92, 0xffeff47d, 0x85845dd1,
   0x6fa87e4f, 0xfe2ce6e0, 0xa3014314, 0x4e0811a1, 0xf7537e82, 0xbd3af235, 0x2ad7d2bb, 0xeb86d391]

/-- The per-round shift amounts of RFC 1321. -/
def md5_s : List Nat :=
  [7, 12, 17, 22, 7, 12, 17, 22, 7, 12, 17, 22, 7, 12, 17, 22,
   5, 9, 14, 20, 5, 9, 14, 20, 5, 9, 14, 20, 5, 9, 14, 20,
   4, 11, 16, 23, 4, 11, 16, 23, 4, 11, 16, 23, 4, 11, 16, 23,
   6, 10, 15, 21, 6, 10, 15, 21, 6, 10, 15, 21, 6, 10, 15, 21]

/-- The message followed by the bit `1`, zero bits up to 56 modulo 64 bytes, and the bit length
as 8 little-endian bytes. -/
def md5_pad (msg : List Nat) : List Nat :=
  msg ++ [128] ++ List.replicate ((119 - msg.length % 64) % 64) 0
    ++ le_bytes 8 ((8 * msg.length) % 18446744073709551616)

/-- Operation `i` of the 64 operations on one block with words `M`. -/
def md5_step (M : List Nat) (st : Nat × Nat × Nat × Nat) (i : Nat) : Nat × Nat × Nat × Nat :=
  let (a, b, c, d) := st
  let fg : Nat × Nat :=
    if i < 16 then ((b &&& c) ||| ((b ^^^ 0xffffffff) &&& d), i)
    else if i < 32 then ((d &&& b) ||| ((d ^^^ 0xffffffff) &&& c), (5 * i + 1) % 16)
    else if i < 48 then (b ^^^ c ^^^ d, (3 * i + 5) % 16)
    else (c ^^^ (b ||| (d ^^^ 0xffffffff)), (7 * i) % 16)
  let f := u32 (fg.1 + a + md5_K.getD i 0 + M.getD fg.2 0)
  (d, u32 (b + rotl32 f (md5_s.getD i 0)), b, c)

/-- One 64-byte block folded into the state. -/
def md5_block (st : Nat × Nat × Nat × Nat) (block : List Nat) : Nat × Nat × Nat × Nat :=
  let M := (blocks 4 16 block).map le_word
  let (a, b, c, d) := (List.range 64).foldl (md5_step M) st
  (u32 (st.1 + a), u32 (st.2.1 + b), u32 (st.2.2.1 + c), u32 (st.2.2.2 + d))

/-- The 16-byte MD5 digest of a byte sequence. -/
def MD5 (msg : List Nat) : List Nat :=
  let padded := md5_pad msg
  let (a, b, c, d) :=
    (blocks 64 (padded.length / 64) padded).foldl md5_block
      (0x67452301, 0xefcdab89, 0x98badcfe, 0x10325476)
  le_bytes 4 a ++ le_bytes 4 b ++ le_bytes 4 c ++ le_bytes 4 d

/-- `MD5_Init(&ctx)`: a context that has absorbed nothing. -/
def MD5_Init : List Nat := []

/-- `MD5_Update(&ctx, data, len)`: the context absorbs `len` bytes at `data`. -/
def MD5_Update (ctx data : List Nat) (len : Nat) : List Nat := ctx ++ data.take len

/-- `MD5_Final(md, &ctx)`: the `MD5_DIGEST_LENGTH` bytes stored at `md`. -/
def MD5_Final (ctx : List Nat) : List Nat := MD5 ctx

/-- `char stored_hash[] = "5d41402abc4b2a76b9719d911017c592";` (33 bytes). -/
def stored_hash : List Nat := literal "5d41402abc4b2a76b9719d911017c592" ++ [0]

/-- `void authenticate_user(const char* username, const char* password)`.  `hash0` is what the
local `char hash[MD5_DIGEST_LENGTH * 2 + 1]` holds on entry (it has no initialiser):
`MD5_Final(hash, &ctx)` stores the digest over its first bytes, `strcmp(hash, stored_hash)`
reads the array from its start, and `grant_access()` is called when the result is 0. -/
def authenticate_user (_username password hash0 : List Nat) : Option (List Event) := do
  let len ← strlen password
  let ctx := MD5_Update MD5_Init password len
  let digest := MD5_Final ctx
  let hash := digest ++ hash0.drop digest.length
  let cmp ← strcmp hash stored_hash
  some (Event.store "hash" (MD5_DIGEST_LENGTH * 2 + 1) digest ::
    (if cmp = 0 then [Event.call "grant_access" []] else []))

/-- The loop `for (int i = 0; i < strlen(data); i++) data[i] ^= key;` with `key = 0x42`, from
index `i`: `strlen(data)` is evaluated at every test of the condition, on the array as it is
then.  `none` when the fuel runs out or the array holds no NUL. -/
def encrypt_sync_data_loop : Nat → List Nat → Nat → Option (List Nat)
  | 0, _, _ => none
  | fuel + 1, data, i =>
    match strlen data with
    | none => none
    | some n =>
      if i < n then encrypt_sync_data_loop fuel (data.set i (data.getD i 0 ^^^ 0x42)) (i + 1)
      else some data

/-- `void encrypt_sync_data(char* data)`: the array after the call. -/
def encrypt_sync_data (data : List Nat) : Option (List Nat) :=
  encrypt_sync_data_loop (data.length + 1) data 0

/-- `SIZE_MAX`: `size_t` is an unsigned type of 64 bits. -/
def SIZE_MAX : Int := 18446744073709551615

/-- The conversion of an `int` to `size_t`: the value reduced modulo `SIZE_MAX + 1`. -/
def to_size_t (x : Int) : Int := x % (SIZE_MAX + 1)

/-- `void encrypt_ecu_data(char* data, int length)`: `char iv[16] = {0};`
`char encryption_key[] = "vw_ecu_key_2020";` then `AES_set_encrypt_key(encryption_key, 128, &key)`
and `AES_cbc_encrypt(data, data, length, &key, iv, AES_ENCRYPT)`.  The third parameter of
`AES_cbc_encrypt` is `size_t length` (`openssl/aes.h`), so the `int length` is converted at the
call. -/
def encrypt_ecu_data (data : Nat) (length : Int) : List Event :=
  let iv : List Nat := List.replicate 16 0
  let encryption_key : List Nat := literal "vw_ecu_key_2020" ++ [0]
  [Event.call "AES_set_encrypt_key" [Arg.array encryption_key, Arg.int 128, Arg.name "&key"],
   Event.call "AES_cbc_encrypt"
     [Arg.ptr data, Arg.ptr data, Arg.int (to_size_t length), Arg.name "&key", Arg.array iv,
      Arg.name "AES_ENCRYPT"]]

/-- `void process_obd_request(uint8_t service_id, uint8_t* data)`: the `switch`. -/
def process_obd_request (service_id : Nat) (data : Nat) : List Event :=
  match service_id with
  | 0x01 => [Event.call "send_current_data" []]
  | 0x02 => [Event.call "send_freeze_frame_data" []]
  | 0x03 => [Event.call "send_stored_dtcs" []]
  | 0x04 => [Event.call "clear_dtcs" []]
  | 0x22 => [Event.call "read_data_by_id" [Arg.ptr data]]
  | 0x2E => [Event.call "write_data_by_id" [Arg.ptr data]]
  | _ => []

/-- The dispatch table of `process_obd_request` as the specification lists it: service id,
callee, whether `data` is passed. -/
def obd_table : List (Nat × String × Bool) :=
  [(0x01, "send_current_data", false), (0x02, "send_freeze_frame_data", false),
   (0x03, "send_stored_dtcs", false), (0x04, "clear_dtcs", false),
   (0x22, "read_data_by_id", true), (0x2E, "write_data_by_id", true)]

/-- The trace the specification's table prescribes: the one call of the row of `service_id`,
nothing when no row has it. -/
def obd_spec (service_id : Nat) (data : Nat) : List Event :=
  match obd_table.lookup service_id with
  | some (callee, passes_data) =>
    [Event.call callee (if passes_data then [Arg.ptr data] else [])]
  | none => []

end comprehensive

/-! ## Observations on traces -/

/-- Argument number `k` (from 0) of the first call of `callee` in a trace. -/
def arg_of (callee : String) (k : Nat) : List Event → Option Arg
  | [] => none
  | Event.call c args :: rest => if c = callee then args.get? k else arg_of callee k rest
  | _ :: rest => arg_of callee k rest

/-- A run of two stores in which the first stays inside its object and the second writes past
the end of its object. -/
def second_copy_alone_overflows : Option (List Event) → Bool
  | some [first, second] => first.write_within && second.write_past_end
  | _ => false

/-- The ASCII code of the lowercase hexadecimal digit `d`. -/
def hex_digit (d : Nat) : Nat := if d < 10 then 48 + d else 87 + d

/-- The lowercase hexadecimal text of a byte sequence, two digits per byte. -/
def hex : List Nat → List Nat
  | [] => []
  | b :: rest => hex_digit (b / 16) :: hex_digit (b % 16) :: hex rest

/-! ## The C library: facts used below -/

theorem strlen_lt_length (mem : List Nat) (n : Nat) (h : strlen mem = some n) :
    n < mem.length := by
  induction mem generalizing n with
  | nil => simp [strlen] at h
  | cons b rest ih =>
    unfold strlen at h
    split at h
    · simp at h; subst h; simp
    · cases hr : strlen rest with
      | none => simp [hr] at h
      | some k =>
        simp [hr] at h
        subst h
        have := ih k hr
        simp; omega

theorem strlen_take_nonzero (mem : List Nat) (n : Nat) (h : strlen mem = some n) :
    ∀ b ∈ mem.take n, b ≠ 0 := by
  induction mem generalizing n with
  | nil => simp [strlen] at h
  | cons b rest ih =>
    unfold strlen at h
    split at h
    · simp at h; subst h; simp
    · next hb =>
      cases hr : strlen rest with
      | none => simp [hr] at h
      | some k =>
        simp [hr] at h
        subst h
        intro x hx
        simp [List.take_succ_cons] at hx
        rcases hx with hx | hx
        · subst hx; exact hb
        · exact ih k hr x hx

theorem c_str_of_strlen (mem : List Nat) (n : Nat) (h : strlen mem = some n) :
    c_str mem = some (mem.take n) := by
  induction mem generalizing n with
  | nil => simp [strlen] at h
  | cons b rest ih =>
    unfold strlen at h
    unfold c_str
    split at h
    · next hb => simp at h; subst h; simp [hb]
    · next hb =>
      cases hr : strlen rest with
      | none => simp [hr] at h
      | some k =>
        simp [hr] at h
        subst h
        simp [hb, ih k hr]

theorem strcpy_of_strlen (mem : List Nat) (n : Nat) (h : strlen mem = some n) :
    strcpy mem = some (mem.take n ++ [0]) := by
  induction mem generalizing n with
  | nil => simp [strlen] at h
  | cons b rest ih =>
    unfold strlen at h
    unfold strcpy
    split at h
    · next hb => simp at h; subst h; simp [hb]
    · next hb =>
      cases hr : strlen rest with
      | none => simp [hr] at h
      | some k =>
        simp [hr] at h
        subst h
        simp [hb, ih k hr]

theorem strlen_terminated (s rest : List Nat) (hs : ∀ b ∈ s, b ≠ 0) :
    strlen (s ++ 0 :: rest) = some s.length := by
  induction s with
  | nil => simp [strlen]
  | cons b t ih =>
    have hb : b ≠ 0 := hs b (by simp)
    have ht : ∀ x ∈ t, x ≠ 0 := fun x hx => hs x (by simp [hx])
    simp [strlen, hb, ih ht]

theorem c_str_terminated (s rest : List Nat) (hs : ∀ b ∈ s, b ≠ 0) :
    c_str (s ++ 0 :: rest) = some s := by
  induction s with
  | nil => simp [c_str]
  | cons b t ih =>
    have hb : b ≠ 0 := hs b (by simp)
    have ht : ∀ x ∈ t, x ≠ 0 := fun x hx => hs x (by simp [hx])
    simp [c_str, hb, ih ht]

theorem strcpy_terminated (s rest : List Nat) (hs : ∀ b ∈ s, b ≠ 0) :
    strcpy (s ++ 0 :: rest) = some (s ++ [0]) := by
  induction s with
  | nil => simp [strcpy]
  | cons b t ih =>
    have hb : b ≠ 0 := hs b (by simp)
    have ht : ∀ x ∈ t, x ≠ 0 := fun x hx => hs x (by simp [hx])
    simp [strcpy, hb, ih ht]

/-! ## sample_ansi_c.c -/

theorem format_diagnostic (s : List Nat) :
    format (literal "diagnostic %s") [Arg.str s] = some (literal "diagnostic " ++ s) := by
  simp [literal, format]

theorem literal_diagnostic_nonzero : ∀ b ∈ literal "diagnostic ", b ≠ 0 := by
  decide

/-- C1: in `process_can_message` of sample_ansi_c.c, for every NUL-terminated message of `n`
characters the `strcpy` stores the `n` characters and the terminator (`n + 1` bytes) from the
start of the 256-byte `buffer`, with no length test; the store stays inside `buffer` exactly
when `n ≤ 255`, and for every longer message it writes past the end of `buffer`. -/
theorem process_can_message_strcpy_bound (message : List Nat) (n : Nat)
    (h : strlen message = some n) :
    sample_ansi_c.process_can_message message =
        some [Event.store "buffer" 256 (message.take n ++ [0]),
              Event.call "printf" [Arg.str (literal "Processing: %s\n"), Arg.str (message.take n)]]
      ∧ (message.take n ++ [0]).length = n + 1
      ∧ ((Event.store "buffer" 256 (message.take n ++ [0])).write_within = true ↔ n ≤ 255)
      ∧ (255 < n → (Event.store "buffer" 256 (message.take n ++ [0])).write_past_end = true) := by
  have hlen : (message.take n).length = n := by
    have := strlen_lt_length message n h
    simp; omega
  have hread : c_str (message.take n ++ [0]) = some (message.take n) :=
    c_str_terminated (message.take n) [] (strlen_take_nonzero message n h)
  have hsize : (message.take n ++ [0]).length = n + 1 := by
    rw [List.length_append, hlen]; rfl
  refine ⟨?_, hsize, ?_, ?_⟩
  · simp [sample_ansi_c.process_can_message, strcpy_of_strlen message n h, hread]
  · simp only [Event.write_within, decide_eq_true_eq, hsize]; omega
  · intro hn
    simp only [Event.write_past_end, decide_eq_true_eq, hsize]; omega

theorem process_can_message_strcpy_bound_witness :
    sample_ansi_c.process_can_message [72, 105, 0] =
        some [Event.store "buffer" 256 ([72, 105, 0].take 2 ++ [0]),
              Event.call "printf"
                [Arg.str (literal "Processing: %s\n"), Arg.str ([72, 105, 0].take 2)]]
      ∧ ([72, 105, 0].take 2 ++ [0]).length = 2 + 1
      ∧ ((Event.store "buffer" 256 ([72, 105, 0].take 2 ++ [0])).write_within = true ↔ 2 ≤ 255)
      ∧ (255 < 2 →
          (Event.store "buffer" 256 ([72, 105, 0].take 2 ++ [0])).write_past_end = true) :=
  process_can_message_strcpy_bound [72, 105, 0] 2 (by decide)

/-- C2: for every NUL-terminated command of `n` characters, `sprintf` produces the 11 bytes of
`"diagnostic "`, the `n` characters of the command unchanged, and the terminator
(`11 + n + 1` bytes).  When `n ≤ 500` this fits the 512-byte `system_command` and the trace has
exactly one call of `system`, whose argument is `"diagnostic "` followed by the command; when
`n > 500` the output does not fit `system_command`. -/
theorem execute_diagnostic_command_system (command : List Nat) (n : Nat)
    (h : strlen command = some n) :
    sample_ansi_c.execute_diagnostic_command command =
        some [Event.store "system_command" 512 (literal "diagnostic " ++ command.take n ++ [0]),
              Event.call "system" [Arg.str (literal "diagnostic " ++ command.take n)]]
      ∧ (literal "diagnostic " ++ command.take n ++ [0]).length = 11 + n + 1
      ∧ (n ≤ 500 →
          (Event.store "system_command" 512
              (literal "diagnostic " ++ command.take n ++ [0])).write_within = true
          ∧ (sample_ansi_c.execute_diagnostic_command command).map (calls_of "system") =
              some [Event.call "system" [Arg.str (literal "diagnostic " ++ command.take n)]])
      ∧ (500 < n →
          (Event.store "system_command" 512
              (literal "diagnostic " ++ command.take n ++ [0])).write_past_end = true) := by
  have hlen : (command.take n).length = n := by
    have := strlen_lt_length command n h
    simp; omega
  have hlit : (literal "diagnostic ").length = 11 := by decide
  have hnz : ∀ b ∈ literal "diagnostic " ++ command.take n, b ≠ 0 := by
    intro b hb
    rcases List.mem_append.mp hb with hb | hb
    · exact literal_diagnostic_nonzero b hb
    · exact strlen_take_nonzero command n h b hb
  have hread : c_str (literal "diagnostic " ++ command.take n ++ [0]) =
      some (literal "diagnostic " ++ command.take n) := by
    exact c_str_terminated _ [] hnz
  have hsize : (literal "diagnostic " ++ command.take n ++ [0]).length = 11 + n + 1 := by
    rw [List.length_append, List.length_append, hlen, hlit]; rfl
  have hrun : sample_ansi_c.execute_diagnostic_command command =
      some [Event.store "system_command" 512 (literal "diagnostic " ++ command.take n ++ [0]),
            Event.call "system" [Arg.str (literal "diagnostic " ++ command.take n)]] := by
    simp only [sample_ansi_c.execute_diagnostic_command, c_str_of_strlen command n h,
      format_diagnostic, Option.bind_eq_bind, Option.some_bind, hread]
  refine ⟨hrun, hsize, ?_, ?_⟩
  · intro hn
    refine ⟨?_, ?_⟩
    · simp only [Event.write_within, decide_eq_true_eq, hsize]; omega
    · rw [hrun]
      simp [calls_of]
  · intro hn
    simp only [Event.write_past_end, decide_eq_true_eq, hsize]; omega

theorem execute_diagnostic_command_system_witness :
    strlen [108, 115, 0] = some 2
      ∧ sample_ansi_c.execute_diagnostic_command [108, 115, 0] =
          some [Event.store "system_command" 512
                  (literal "diagnostic " ++ [108, 115, 0].take 2 ++ [0]),
                Event.call "system" [Arg.str (literal "diagnostic " ++ [108, 115, 0].take 2)]] :=
  ⟨by decide, (execute_diagnostic_command_system [108, 115, 0] 2 (by decide)).1⟩

open sample_ansi_c in
theorem wrap_int_add (a b : Int) : wrap_int (wrap_int a + b) = wrap_int (a + b) := by
  unfold wrap_int; omega

open sample_ansi_c in
theorem wrap_int_range (x : Int) : INT_MIN ≤ wrap_int x ∧ wrap_int x ≤ INT_MAX := by
  unfold wrap_int INT_MIN INT_MAX; omega

open sample_ansi_c in
theorem wrap_int_congruent (x : Int) : (wrap_int x - x) % 4294967296 = 0 := by
  unfold wrap_int; omega

open sample_ansi_c in
theorem wrap_int_of_range (x : Int) (h1 : INT_MIN ≤ x) (h2 : x ≤ INT_MAX) : wrap_int x = x := by
  unfold wrap_int
  unfold INT_MIN at h1
  unfold INT_MAX at h2
  omega

open sample_ansi_c in
theorem calculate_checksum_loop_spec (data : List Int) (L : Nat) (hL : L ≤ data.length)
    (hmax : (L : Int) ≤ INT_MAX) :
    ∀ (fuel k : Nat) (sum : Int) (reads : List Int), k ≤ L → L - k < fuel →
      calculate_checksum_loop data (L : Int) fuel (k : Int) (wrap_int sum) reads =
        some (wrap_int (sum + ((data.take L).drop k).sum),
              reads ++ (List.range' k (L - k)).map Int.ofNat) := by
  intro fuel
  induction fuel with
  | zero => intro k sum reads _ hf; omega
  | succ fuel ih =>
    intro k sum reads hk hf
    unfold calculate_checksum_loop
    by_cases hlt : k < L
    · have hlt2 : (k : Int) < (L : Int) := by exact_mod_cast hlt
      have hnn : ¬ ((k : Int) < 0) := by omega
      have hkd : k < data.length := by omega
      have hget : data.get? (k : Int).toNat = some (data.get ⟨k, hkd⟩) := by
        simp [List.getElem?_eq_getElem hkd]
      have hnext : wrap_int ((k : Int) + 1) = ((k + 1 : Nat) : Int) := by
        rw [wrap_int_of_range]
        · push_cast; rfl
        · unfold INT_MIN; omega
        · omega
      have hdrop : (data.take L).drop k = data.get ⟨k, hkd⟩ :: (data.take L).drop (k + 1) := by
        have hk2 : k < (data.take L).length := by simp; omega
        rw [List.drop_eq_getElem_cons hk2]
        simp
      have hrange : List.range' k (L - k) = k :: List.range' (k + 1) (L - (k + 1)) := by
        have : L - k = (L - (k + 1)) + 1 := by omega
        rw [this, List.range'_succ]
      rw [if_pos hlt2, if_neg hnn, hget]
      simp only []
      rw [hnext, wrap_int_add, ih (k + 1) (sum + data.get ⟨k, hkd⟩) (reads ++ [(k : Int)])
        (by omega) (by omega), hdrop, hrange]
      simp [add_assoc]
    · have hkL : k = L := by omega
      subst hkL
      have hnil : (data.take k).drop k = [] := List.drop_eq_nil_of_le (by simp)
      simp [hnil]

/-- C10: for every `int` array `data` and every `length` with `0 ≤ length ≤` the number of
elements, `calculate_checksum` reads the elements `0 .. length - 1` and returns their sum
wrapped to a signed 32-bit `int`: a value in `INT_MIN .. INT_MAX` congruent to the mathematical
sum modulo 2^32.  For every `length ≤ 0` it returns 0 and reads no element.  For the two elements
`INT_MAX` and `1` the mathematical sum exceeds `INT_MAX` and the value returned differs from
it. -/
theorem calculate_checksum_wrapped_sum (data : List Int) (length : Int)
    (hint : length ≤ sample_ansi_c.INT_MAX) :
    (0 ≤ length → length ≤ data.length →
        sample_ansi_c.calculate_checksum data length =
            some (sample_ansi_c.wrap_int (data.take length.toNat).sum,
                  (List.range length.toNat).map Int.ofNat)
          ∧ sample_ansi_c.INT_MIN ≤ sample_ansi_c.wrap_int (data.take length.toNat).sum
          ∧ sample_ansi_c.wrap_int (data.take length.toNat).sum ≤ sample_ansi_c.INT_MAX
          ∧ (sample_ansi_c.wrap_int (data.take length.toNat).sum
              - (data.take length.toNat).sum) % 4294967296 = 0)
      ∧ (length ≤ 0 → sample_ansi_c.calculate_checksum data length = some (0, []))
      ∧ (sample_ansi_c.INT_MAX < ([sample_ansi_c.INT_MAX, 1] : List Int).sum
          ∧ sample_ansi_c.calculate_checksum [sample_ansi_c.INT_MAX, 1] 2 =
              some (sample_ansi_c.INT_MIN, [0, 1])
          ∧ sample_ansi_c.INT_MIN ≠ ([sample_ansi_c.INT_MAX, 1] : List Int).sum) := by
  refine ⟨?_, ?_, ?_⟩
  · intro h0 hlen
    obtain ⟨L, rfl⟩ := Int.eq_ofNat_of_zero_le h0
    have hL : L ≤ data.length := by exact_mod_cast hlen
    have hrun := calculate_checksum_loop_spec data L hL hint (L + 1) 0 0 [] (by omega) (by omega)
    have hw0 : sample_ansi_c.wrap_int 0 = 0 := by decide
    rw [hw0] at hrun
    refine ⟨?_, (wrap_int_range _).1, (wrap_int_range _).2, wrap_int_congruent _⟩
    unfold sample_ansi_c.calculate_checksum
    simp only [Int.toNat_ofNat, Nat.cast_zero] at hrun ⊢
    rw [hrun]
    simp [List.range_eq_range']
  · intro hle
    unfold sample_ansi_c.calculate_checksum sample_ansi_c.calculate_checksum_loop
    have : ¬ ((0 : Int) < length) := by omega
    simp [this]
  · decide

theorem calculate_checksum_wrapped_sum_witness :
    (3 : Int) ≤ sample_ansi_c.INT_MAX
      ∧ sample_ansi_c.calculate_checksum [5, 7, 11, 13] 3 = some (23, [0, 1, 2]) :=
  ⟨by decide,
   by simpa using
    ((calculate_checksum_wrapped_sum [5, 7, 11, 13] 3 (by decide)).1 (by decide) (by decide)).1⟩

/-! ## comprehensive_real_world_vulnerabilities.c -/

/-- C3: for every `service_id` and `data`, the trace of `process_obd_request` is the one call its
table gives (`0x01` `send_current_data`, `0x02` `send_freeze_frame_data`, `0x03`
`send_stored_dtcs`, `0x04` `clear_dtcs`, `0x22` `read_data_by_id(data)`, `0x2E`
`write_data_by_id(data)`) and is empty for every other `service_id`; for `0x04` the trace is the
call of `clear_dtcs` alone, so no call precedes it. -/
theorem process_obd_request_table (service_id data : Nat) :
    comprehensive.process_obd_request service_id data = comprehensive.obd_spec service_id data
      ∧ comprehensive.process_obd_request 0x01 data = [Event.call "send_current_data" []]
      ∧ comprehensive.process_obd_request 0x02 data = [Event.call "send_freeze_frame_data" []]
      ∧ comprehensive.process_obd_request 0x03 data = [Event.call "send_stored_dtcs" []]
      ∧ comprehensive.process_obd_request 0x04 data = [Event.call "clear_dtcs" []]
      ∧ comprehensive.process_obd_request 0x22 data =
          [Event.call "read_data_by_id" [Arg.ptr data]]
      ∧ comprehensive.process_obd_request 0x2E data =
          [Event.call "write_data_by_id" [Arg.ptr data]]
      ∧ (service_id ∉ [0x01, 0x02, 0x03, 0x04, 0x22, 0x2E] →
          comprehensive.process_obd_request service_id data = []) := by
  refine ⟨?_, rfl, rfl, rfl, rfl, rfl, rfl, ?_⟩
  · unfold comprehensive.process_obd_request
    split <;> try rfl
    next h1 h2 h3 h4 h5 h6 =>
      have hnone : comprehensive.obd_table.lookup service_id = none := by
        have e1 : (service_id == 1) = false := by simpa using h1
        have e2 : (service_id == 2) = false := by simpa using h2
        have e3 : (service_id == 3) = false := by simpa using h3
        have e4 : (service_id == 4) = false := by simpa using h4
        have e5 : (service_id == 34) = false := by simpa using h5
        have e6 : (service_id == 46) = false := by simpa using h6
        simp [comprehensive.obd_table, List.lookup, e1, e2, e3, e4, e5, e6]
      simp [comprehensive.obd_spec, hnone]
  · intro hnot
    simp at hnot
    unfold comprehensive.process_obd_request
    split <;> simp_all

theorem to_size_t_of_nonneg (length : Int) (h0 : 0 ≤ length)
    (hmax : length ≤ sample_ansi_c.INT_MAX) : comprehensive.to_size_t length = length := by
  unfold sample_ansi_c.INT_MAX at hmax
  unfold comprehensive.to_size_t comprehensive.SIZE_MAX
  omega

theorem to_size_t_of_neg (length : Int) (hmin : sample_ansi_c.INT_MIN ≤ length)
    (hneg : length < 0) :
    comprehensive.to_size_t length = length + 18446744073709551616 := by
  unfold sample_ansi_c.INT_MIN at hmin
  unfold comprehensive.to_size_t comprehensive.SIZE_MAX
  omega

/-- C4 as stated fails: for `length = -1` the length `AES_cbc_encrypt` receives is
18446744073709551615 (the `int` converted to `size_t`), not `-1`. -/
theorem encrypt_ecu_data_negative_length_converted :
    arg_of "AES_cbc_encrypt" 2 (comprehensive.encrypt_ecu_data 0 (-1)) =
        some (Arg.int 18446744073709551615)
      ∧ arg_of "AES_cbc_encrypt" 2 (comprehensive.encrypt_ecu_data 0 (-1)) ≠
        some (Arg.int (-1)) := by
  decide

/-- C4, amended: for every `data` and every `int` `length`, `encrypt_ecu_data` calls
`AES_set_encrypt_key` with the 16 bytes of `"vw_ecu_key_2020"` and its terminator (128 bits, as
many as requested) and then `AES_cbc_encrypt` with `data` as input and output and an IV of 16
zero bytes; the length passed is `length` itself when `0 ≤ length` and `length + 2^64` when
`length < 0`; the key and the IV passed are the same for any two inputs. -/
theorem encrypt_ecu_data_fixed_key_and_iv (data : Nat) (length : Int)
    (hmin : sample_ansi_c.INT_MIN ≤ length) (hmax : length ≤ sample_ansi_c.INT_MAX) :
    (0 ≤ length →
        comprehensive.encrypt_ecu_data data length =
          [Event.call "AES_set_encrypt_key"
             [Arg.array (literal "vw_ecu_key_2020" ++ [0]), Arg.int 128, Arg.name "&key"],
           Event.call "AES_cbc_encrypt"
             [Arg.ptr data, Arg.ptr data, Arg.int length, Arg.name "&key",
              Arg.array [0, 0, 0, 0, 0, 0, 0, 0, 0, 0, 0, 0, 0, 0, 0, 0],
              Arg.name "AES_ENCRYPT"]])
      ∧ (length < 0 →
        comprehensive.encrypt_ecu_data data length =
          [Event.call "AES_set_encrypt_key"
             [Arg.array (literal "vw_ecu_key_2020" ++ [0]), Arg.int 128, Arg.name "&key"],
           Event.call "AES_cbc_encrypt"
             [Arg.ptr data, Arg.ptr data, Arg.int (length + 18446744073709551616),
              Arg.name "&key", Arg.array [0, 0, 0, 0, 0, 0, 0, 0, 0, 0, 0, 0, 0, 0, 0, 0],
              Arg.name "AES_ENCRYPT"]])
      ∧ (literal "vw_ecu_key_2020").length = 15
      ∧ (literal "vw_ecu_key_2020" ++ [0]).length = 16
      ∧ 8 * (literal "vw_ecu_key_2020" ++ [0]).length = 128
      ∧ (∀ (data2 : Nat) (length2 : Int),
          arg_of "AES_set_encrypt_key" 0 (comprehensive.encrypt_ecu_data data length) =
              arg_of "AES_set_encrypt_key" 0 (comprehensive.encrypt_ecu_data data2 length2)
            ∧ arg_of "AES_cbc_encrypt" 4 (comprehensive.encrypt_ecu_data data length) =
              arg_of "AES_cbc_encrypt" 4 (comprehensive.encrypt_ecu_data data2 length2)) := by
  have hrun : comprehensive.encrypt_ecu_data data length =
      [Event.call "AES_set_encrypt_key"
         [Arg.array (literal "vw_ecu_key_2020" ++ [0]), Arg.int 128, Arg.name "&key"],
       Event.call "AES_cbc_encrypt"
         [Arg.ptr data, Arg.ptr data, Arg.int (comprehensive.to_size_t length), Arg.name "&key",
          Arg.array [0, 0, 0, 0, 0, 0, 0, 0, 0, 0, 0, 0, 0, 0, 0, 0],
          Arg.name "AES_ENCRYPT"]] := rfl
  refine ⟨?_, ?_, by decide, by decide, by decide, ?_⟩
  · intro h0
    rw [hrun, to_size_t_of_nonneg length h0 hmax]
  · intro hneg
    rw [hrun, to_size_t_of_neg length hmin hneg]
  · intro data2 length2
    exact ⟨rfl, rfl⟩

theorem encrypt_ecu_data_fixed_key_and_iv_witness :
    comprehensive.encrypt_ecu_data 4096 32 =
      [Event.call "AES_set_encrypt_key"
         [Arg.array (literal "vw_ecu_key_2020" ++ [0]), Arg.int 128, Arg.name "&key"],
       Event.call "AES_cbc_encrypt"
         [Arg.ptr 4096, Arg.ptr 4096, Arg.int 32, Arg.name "&key",
          Arg.array [0, 0, 0, 0, 0, 0, 0, 0, 0, 0, 0, 0, 0, 0, 0, 0], Arg.name "AES_ENCRYPT"]] :=
  (encrypt_ecu_data_fixed_key_and_iv 4096 32 (by decide) (by decide)).1 (by decide)

theorem c_str_of_mem_zero (mem : List Nat) (h : 0 ∈ mem) :
    c_str mem = some (mem.takeWhile (· != 0)) := by
  induction mem with
  | nil => simp at h
  | cons b rest ih =>
    unfold c_str
    by_cases hb : b = 0
    · subst hb; simp
    · have hr : 0 ∈ rest := by
        rcases List.mem_cons.mp h with h0 | h0
        · exact absurd h0.symm hb
        · exact h0
      simp [hb, ih hr, List.takeWhile_cons]

theorem strcpy_of_mem_zero (mem : List Nat) (h : 0 ∈ mem) :
    strcpy mem = some (mem.takeWhile (· != 0) ++ [0]) := by
  induction mem with
  | nil => simp at h
  | cons b rest ih =>
    unfold strcpy
    by_cases hb : b = 0
    · subst hb; simp
    · have hr : 0 ∈ rest := by
        rcases List.mem_cons.mp h with h0 | h0
        · exact absurd h0.symm hb
        · exact h0
      simp [hb, ih hr, List.takeWhile_cons]

theorem takeWhile_nonzero (mem : List Nat) : ∀ b ∈ mem.takeWhile (· != 0), b ≠ 0 := by
  intro b hb
  have := List.mem_takeWhile_imp hb
  simpa using this

/-- C5: for every CAN message whose 8-byte `data` contains a NUL, `process_diagnostic_message`
copies the bytes of `msg->data` before the first NUL (and the terminator) into `buffer`, inside
its 64 bytes, and makes exactly one call of `printf`, with a single argument: the format string,
which is those payload bytes. -/
theorem process_diagnostic_message_payload_is_format (msg : comprehensive.can_message_t)
    (hwf : msg.wf) (hnul : 0 ∈ msg.data) :
    comprehensive.process_diagnostic_message msg =
        some [Event.store "buffer" 64 (msg.data.takeWhile (· != 0) ++ [0]),
              Event.call "printf" [Arg.str (msg.data.takeWhile (· != 0))]]
      ∧ (Event.store "buffer" 64 (msg.data.takeWhile (· != 0) ++ [0])).write_within = true
      ∧ (comprehensive.process_diagnostic_message msg).map (calls_of "printf") =
          some [Event.call "printf" [Arg.str (msg.data.takeWhile (· != 0))]] := by
  have hrun : comprehensive.process_diagnostic_message msg =
      some [Event.store "buffer" 64 (msg.data.takeWhile (· != 0) ++ [0]),
            Event.call "printf" [Arg.str (msg.data.takeWhile (· != 0))]] := by
    have hread := c_str_terminated (msg.data.takeWhile (· != 0)) [] (takeWhile_nonzero msg.data)
    simp only [comprehensive.process_diagnostic_message, strcpy_of_mem_zero msg.data hnul,
      Option.bind_eq_bind, Option.some_bind, hread]
  refine ⟨hrun, ?_, ?_⟩
  · have h8 : msg.data.length = 8 := hwf.2.1
    have hle : (msg.data.takeWhile (· != 0)).length ≤ msg.data.length :=
      (List.takeWhile_sublist _).length_le
    simp only [Event.write_within, decide_eq_true_eq, List.length_append, List.length_singleton]
    omega
  · rw [hrun]
    simp [calls_of]

theorem process_diagnostic_message_payload_is_format_witness :
    comprehensive.process_diagnostic_message ⟨0x7E0, [37, 120, 0, 1, 2, 3, 4, 5], 8⟩ =
      some [Event.store "buffer" 64 [37, 120, 0], Event.call "printf" [Arg.str [37, 120]]] :=
  (process_diagnostic_message_payload_is_format ⟨0x7E0, [37, 120, 0, 1, 2, 3, 4, 5], 8⟩
    (by simp [comprehensive.can_message_t.wf]) (by simp)).1

/-- C7: for every message with id `0x123`, `process_can_message` copies `msg->length` bytes from
`msg->data` to the 4-byte `engine_control` and then calls `execute_engine_command`, and nothing
else; the copy stays inside `engine_control` (and inside the 8-byte `data`) exactly when
`msg->length ≤ 4`, and every length from 5 to 255 writes past the end of `engine_control`. -/
theorem process_can_message_engine_copy (msg : comprehensive.can_message_t)
    (hid : msg.id = 0x123) :
    comprehensive.process_can_message msg =
        [Event.copy "engine_control" 4 "msg->data" 8 msg.length,
         Event.call "execute_engine_command" []]
      ∧ ((Event.copy "engine_control" 4 "msg->data" 8 msg.length).write_within = true
          ↔ msg.length ≤ 4)
      ∧ ((Event.copy "engine_control" 4 "msg->data" 8 msg.length).write_within = true
          ∧ (Event.copy "engine_control" 4 "msg->data" 8 msg.length).read_within = true
          ↔ msg.length ≤ 4)
      ∧ (5 ≤ msg.length → msg.length ≤ 255 →
          (Event.copy "engine_control" 4 "msg->data" 8 msg.length).write_past_end = true) := by
  refine ⟨?_, ?_, ?_, ?_⟩
  · simp [comprehensive.process_can_message, hid, comprehensive.sizeof_int]
  · simp [Event.write_within]
  · simp only [Event.write_within, Event.read_within, decide_eq_true_eq]; omega
  · intro h5 _
    simp only [Event.write_past_end, decide_eq_true_eq]; omega

theorem process_can_message_engine_copy_witness :
    comprehensive.process_can_message ⟨0x123, [1, 2, 3, 4, 5, 6, 7, 8], 8⟩ =
      [Event.copy "engine_control" 4 "msg->data" 8 8, Event.call "execute_engine_command" []] :=
  (process_can_message_engine_copy ⟨0x123, [1, 2, 3, 4, 5, 6, 7, 8], 8⟩ rfl).1

theorem strcpy_eq_none (mem : List Nat) (h : strlen mem = none) : strcpy mem = none := by
  induction mem with
  | nil => rfl
  | cons b rest ih =>
    unfold strlen at h
    unfold strcpy
    by_cases hb : b = 0
    · simp [hb] at h
    · simp [hb] at h
      simp [hb, ih h]

theorem process_remote_message_run (message : List Nat) (n : Nat)
    (h : strlen message = some n) :
    comprehensive.process_remote_message message =
      some [Event.store "local_buffer" 128 (message.take n ++ [0]),
            Event.store "large_buffer" 1024 (message.take n ++ [0])] := by
  have hsecond := strcpy_terminated (message.take n) [] (strlen_take_nonzero message n h)
  simp only [comprehensive.process_remote_message, strcpy_of_strlen message n h,
    Option.bind_eq_bind, Option.some_bind, hsecond]

theorem process_bluetooth_message_run (message : List Nat) (n : Nat)
    (h : strlen message = some n) :
    comprehensive.process_bluetooth_message message =
      some [Event.store "local_buffer" 64 (message.take n ++ [0]),
            Event.store "large_buffer" 256 (message.take n ++ [0])] := by
  have hsecond := strcpy_terminated (message.take n) [] (strlen_take_nonzero message n h)
  simp only [comprehensive.process_bluetooth_message, strcpy_of_strlen message n h,
    Option.bind_eq_bind, Option.some_bind, hsecond]

theorem take_strlen_size (message : List Nat) (n : Nat) (h : strlen message = some n) :
    (message.take n ++ [0]).length = n + 1 := by
  have := strlen_lt_length message n h
  rw [List.length_append, List.length_take]
  simp; omega

/-- C8 as stated fails: neither in `process_remote_message` nor in `process_bluetooth_message`
is there a message for which the first `strcpy` stays within `local_buffer` and the second
writes past the end of `large_buffer`. -/
theorem no_message_overflows_second_copy_alone :
    (¬ ∃ message : List Nat,
        second_copy_alone_overflows (comprehensive.process_remote_message message) = true)
      ∧ (¬ ∃ message : List Nat,
        second_copy_alone_overflows (comprehensive.process_bluetooth_message message) = true) := by
  constructor
  · rintro ⟨message, hm⟩
    cases hs : strlen message with
    | none =>
      simp [comprehensive.process_remote_message, strcpy_eq_none message hs,
        second_copy_alone_overflows] at hm
    | some n =>
      rw [process_remote_message_run message n hs] at hm
      simp only [second_copy_alone_overflows, Event.write_within, Event.write_past_end,
        Bool.and_eq_true, decide_eq_true_eq, take_strlen_size message n hs] at hm
      omega
  · rintro ⟨message, hm⟩
    cases hs : strlen message with
    | none =>
      simp [comprehensive.process_bluetooth_message, strcpy_eq_none message hs,
        second_copy_alone_overflows] at hm
    | some n =>
      rw [process_bluetooth_message_run message n hs] at hm
      simp only [second_copy_alone_overflows, Event.write_within, Event.write_past_end,
        Bool.and_eq_true, decide_eq_true_eq, take_strlen_size message n hs] at hm
      omega

/-- C8, amended: in `process_remote_message` and in `process_bluetooth_message`, for every
NUL-terminated message of `n` characters both copies store the same `n + 1` bytes; the first
stays within `local_buffer` (128 resp. 64 bytes) exactly when `n ≤ 127` resp. `n ≤ 63`, and
whenever it does, the second stays within `large_buffer` (1024 resp. 256 bytes). -/
theorem second_copy_within_when_first_within (message : List Nat) (n : Nat)
    (h : strlen message = some n) :
    (comprehensive.process_remote_message message =
        some [Event.store "local_buffer" 128 (message.take n ++ [0]),
              Event.store "large_buffer" 1024 (message.take n ++ [0])]
      ∧ ((Event.store "local_buffer" 128 (message.take n ++ [0])).write_within = true ↔ n ≤ 127)
      ∧ ((Event.store "local_buffer" 128 (message.take n ++ [0])).write_within = true →
          (Event.store "large_buffer" 1024 (message.take n ++ [0])).write_within = true))
    ∧ (comprehensive.process_bluetooth_message message =
        some [Event.store "local_buffer" 64 (message.take n ++ [0]),
              Event.store "large_buffer" 256 (message.take n ++ [0])]
      ∧ ((Event.store "local_buffer" 64 (message.take n ++ [0])).write_within = true ↔ n ≤ 63)
      ∧ ((Event.store "local_buffer" 64 (message.take n ++ [0])).write_within = true →
          (Event.store "large_buffer" 256 (message.take n ++ [0])).write_within = true)) := by
  have hsize := take_strlen_size message n h
  refine ⟨⟨process_remote_message_run message n h, ?_, ?_⟩,
    ⟨process_bluetooth_message_run message n h, ?_, ?_⟩⟩
  · simp only [Event.write_within, decide_eq_true_eq, hsize]; omega
  · simp only [Event.write_within, decide_eq_true_eq, hsize]; omega
  · simp only [Event.write_within, decide_eq_true_eq, hsize]; omega
  · simp only [Event.write_within, decide_eq_true_eq, hsize]; omega

theorem second_copy_within_when_first_within_witness :
    strlen [79, 75, 0] = some 2
      ∧ comprehensive.process_remote_message [79, 75, 0] =
          some [Event.store "local_buffer" 128 ([79, 75, 0].take 2 ++ [0]),
                Event.store "large_buffer" 1024 ([79, 75, 0].take 2 ++ [0])]
      ∧ comprehensive.process_bluetooth_message [79, 75, 0] =
          some [Event.store "local_buffer" 64 ([79, 75, 0].take 2 ++ [0]),
                Event.store "large_buffer" 256 ([79, 75, 0].take 2 ++ [0])] :=
  ⟨by decide,
   (second_copy_within_when_first_within [79, 75, 0] 2 (by decide)).1.1,
   (second_copy_within_when_first_within [79, 75, 0] 2 (by decide)).2.1⟩

set_option maxRecDepth 1000000 in
theorem MD5_hello :
    comprehensive.MD5 (literal "hello") =
      [93, 65, 64, 42, 188, 75, 42, 118, 185, 113, 157, 145, 16, 23, 197, 146] := by
  decide

theorem stored_hash_is_hex_of_MD5_hello :
    comprehensive.stored_hash = hex (comprehensive.MD5 (literal "hello")) ++ [0] := by
  rw [MD5_hello]
  decide

/-- C6, the code at the failing input: the stored hash is the hexadecimal text of the MD5
digest of `"hello"`, yet for every username and whatever the uninitialised `hash` array holds,
`authenticate_user(username, "hello")` stores the 16 raw digest bytes in `hash`, `strcmp` finds
`0x5d` against `'5'` at the first byte, and `grant_access` is not called. -/
theorem authenticate_user_hello_not_granted (username hash0 : List Nat) :
    comprehensive.stored_hash = hex (comprehensive.MD5 (literal "hello")) ++ [0]
      ∧ comprehensive.authenticate_user username (literal "hello" ++ [0]) hash0 =
          some [Event.store "hash" 33
            [93, 65, 64, 42, 188, 75, 42, 118, 185, 113, 157, 145, 16, 23, 197, 146]]
      ∧ (comprehensive.authenticate_user username (literal "hello" ++ [0]) hash0).map
          (calls_of "grant_access") = some [] := by
  have hlen : strlen (literal "hello" ++ [0]) = some 5 := by decide
  have hctx : comprehensive.MD5_Update comprehensive.MD5_Init (literal "hello" ++ [0]) 5 =
      literal "hello" := by decide
  have hrun : comprehensive.authenticate_user username (literal "hello" ++ [0]) hash0 =
      some [Event.store "hash" 33
        [93, 65, 64, 42, 188, 75, 42, 118, 185, 113, 157, 145, 16, 23, 197, 146]] := by
    simp only [comprehensive.authenticate_user, hlen, Option.bind_eq_bind, Option.some_bind,
      hctx, comprehensive.MD5_Final, MD5_hello]
    simp [strcmp, comprehensive.stored_hash, literal, comprehensive.MD5_DIGEST_LENGTH]
  refine ⟨stored_hash_is_hex_of_MD5_hello, hrun, ?_⟩
  rw [hrun]
  simp [calls_of]

/-- C9, the code at the failing input: on the NUL-terminated string `"BA"` (bytes 0x42, 0x41)
`encrypt_sync_data` turns the first byte into 0, after which `strlen(data)` is 0 and the loop
ends: the byte at index 1 is still 0x41, not `0x41 XOR 0x42 = 0x03`. -/
theorem encrypt_sync_data_stops_at_key_byte :
    strlen [0x42, 0x41, 0] = some 2
      ∧ comprehensive.encrypt_sync_data [0x42, 0x41, 0] = some [0, 0x41, 0]
      ∧ (0x41 ^^^ 0x42 : Nat) = 0x03 := by
  decide

/-! ### `encrypt_sync_data` away from the key byte, `authenticate_user` on a matching digest -/

theorem strlen_append_nonzero (pre post : List Nat) (hpre : ∀ b ∈ pre, b ≠ 0) :
    strlen (pre ++ post) = (strlen post).map (pre.length + ·) := by
  induction pre with
  | nil => cases hsp : strlen post <;> simp [hsp]
  | cons b t ih =>
    have hb : b ≠ 0 := hpre b (by simp)
    have ht : ∀ x ∈ t, x ≠ 0 := fun x hx => hpre x (by simp [hx])
    have hstep : strlen (b :: (t ++ post)) = (strlen (t ++ post)).map (· + 1) := by
      simp [strlen, hb]
    rw [List.cons_append, hstep, ih ht]
    cases hsp : strlen post with
    | none => simp
    | some v => simp; omega

theorem encrypt_sync_data_loop_spec :
    ∀ (fuel m : Nat) (pre post : List Nat), (∀ b ∈ pre, b ≠ 0) → strlen post = some m →
      (∀ b ∈ post.take m, b ≠ 0x42) → m < fuel →
      comprehensive.encrypt_sync_data_loop fuel (pre ++ post) pre.length =
        some (pre ++ (post.take m).map (· ^^^ 0x42) ++ post.drop m) := by
  intro fuel
  induction fuel with
  | zero => intro m pre post _ _ _ hf; omega
  | succ fuel ih =>
    intro m pre post hpre hlen hkey hf
    unfold comprehensive.encrypt_sync_data_loop
    rw [strlen_append_nonzero pre post hpre, hlen]
    simp only [Option.map_some']
    cases post with
    | nil => simp [strlen] at hlen
    | cons b rest =>
      unfold strlen at hlen
      by_cases hb : b = 0
      · simp [hb] at hlen
        subst hlen
        simp [hb]
      · cases hr : strlen rest with
        | none => simp [hb, hr] at hlen
        | some k =>
          simp [hb, hr] at hlen
          subst hlen
          have hbk : b ≠ 0x42 := hkey b (by simp [List.take_succ_cons])
          have hx : b ^^^ 0x42 ≠ 0 := fun h0 => hbk (Nat.xor_eq_zero.mp h0)
          have hpre2 : ∀ x ∈ pre ++ [b ^^^ 0x42], x ≠ 0 := by
            intro x hx2
            rcases List.mem_append.mp hx2 with h1 | h1
            · exact hpre x h1
            · simp at h1; subst h1; exact hx
          have hkey2 : ∀ x ∈ rest.take k, x ≠ 0x42 := fun x hx2 =>
            hkey x (by simp [List.take_succ_cons, hx2])
          have hstep := ih k (pre ++ [b ^^^ 0x42]) rest hpre2 hr hkey2 (by omega)
          have hget : (pre ++ b :: rest).getD pre.length 0 = b := by
            rw [List.getD_append_right _ _ _ _ (le_refl _)]
            simp
          have hset : (pre ++ b :: rest).set pre.length (b ^^^ 0x42) =
              (pre ++ [b ^^^ 0x42]) ++ rest := by
            rw [List.set_append_right _ _ (le_refl _)]
            simp
          have hlt : pre.length < pre.length + (k + 1) := by omega
          rw [if_pos hlt, hget, hset]
          have hl : (pre ++ [b ^^^ 0x42]).length = pre.length + 1 := by simp
          rw [← hl, hstep]
          simp [List.take_succ_cons]

theorem encrypt_sync_data_without_key_byte (data : List Nat) (n : Nat)
    (h : strlen data = some n) (hkey : ∀ b ∈ data.take n, b ≠ 0x42) :
    comprehensive.encrypt_sync_data data =
      some ((data.take n).map (· ^^^ 0x42) ++ data.drop n) := by
  have hn := strlen_lt_length data n h
  have := encrypt_sync_data_loop_spec (data.length + 1) n [] data (by simp) h hkey (by omega)
  simpa [comprehensive.encrypt_sync_data] using this

theorem encrypt_sync_data_without_key_byte_witness :
    comprehensive.encrypt_sync_data [0x41, 0x43, 0, 0x42] = some [0x03, 0x01, 0, 0x42] := by
  simpa using encrypt_sync_data_without_key_byte [0x41, 0x43, 0, 0x42] 2 (by decide) (by decide)

theorem authenticate_user_matching_digest_not_granted (username password hash0 : List Nat)
    (n : Nat) (hlen : strlen password = some n)
    (hmatch : hex (comprehensive.MD5 (password.take n)) ++ [0] = comprehensive.stored_hash) :
    (comprehensive.authenticate_user username password hash0).map (calls_of "grant_access") =
      some [] := by
  have hfirst : ∃ rest, comprehensive.MD5 (password.take n) = 93 :: rest := by
    cases hd : comprehensive.MD5 (password.take n) with
    | nil =>
      rw [hd] at hmatch
      simp [hex, comprehensive.stored_hash, literal] at hmatch
    | cons b rest =>
      rw [hd] at hmatch
      simp only [hex, comprehensive.stored_hash, literal] at hmatch
      have h1 : hex_digit (b / 16) = 53 := by
        have := congrArg (fun l => l.getD 0 0) hmatch
        simpa using this
      have h2 : hex_digit (b % 16) = 100 := by
        have := congrArg (fun l => l.getD 1 0) hmatch
        simpa using this
      unfold hex_digit at h1 h2
      refine ⟨rest, ?_⟩
      have : b = 93 := by
        split at h1 <;> split at h2 <;> omega
      rw [this]
  obtain ⟨rest, hrest⟩ := hfirst
  simp only [comprehensive.authenticate_user, hlen, Option.bind_eq_bind, Option.some_bind,
    comprehensive.MD5_Update, comprehensive.MD5_Init, comprehensive.MD5_Final, List.nil_append,
    hrest]
  simp [strcmp, comprehensive.stored_hash, literal, calls_of]

theorem authenticate_user_matching_digest_not_granted_witness :
    (comprehensive.authenticate_user [] (literal "hello" ++ [0]) []).map
      (calls_of "grant_access") = some [] :=
  authenticate_user_matching_digest_not_granted [] (literal "hello" ++ [0]) [] 5 (by decide)
    (by
      have h5 : (literal "hello" ++ [0]).take 5 = literal "hello" := by decide
      rw [h5, MD5_hello]
      decide)

end EcuScanGuard
